import Mathlib

/-!
Shallow embedding of the `asm6502` package of the jamulator repository.

Two source files are modelled:
* the instruction selector and flat collector (`compileInstruction`,
  `Program.Visit`, `ToProgram`);
* the two-pass LLVM-IR lowering (`compile.go`: `dataAddStmt`, `dataStop`,
  `dataStart`, `visitForDataStmts`, `LabeledStatement.Compile`,
  `visitForCompile`, `setUpEntryPoint`, `Program.Compile`).

Go maps are modelled as association lists with overwrite-on-insert
(`mapInsert`) and `List.lookup`; Go byte truncation `byte(v)` is `v % 256`;
LLVM module state is modelled by the list of basic blocks added to the main
function (name plus optional terminator) and the list of emitted data
globals (name plus bytes).
-/

set_option maxRecDepth 8192

namespace Asm6502

/-- The three instruction shapes handled by the source `compileInstruction`
type switch (ImpliedInstruction, ImmediateInstruction,
AbsoluteWithLabelIndexedInstruction), with source line and mnemonic fields
as in the Go structs. -/
inductive InstructionStatement
  | implied (Line : Int) (OpName : String)
  | immediate (Line : Int) (OpName : String) (Value : Int)
  | absoluteWithLabelIndexed (Line : Int) (OpName : String) (LabelName : String) (RegisterName : String)
deriving DecidableEq

/-- Data items of a DataStatement: IntegerDataItem or StringDataItem. -/
inductive DataItem
  | int (v : Int)
  | str (s : String)
deriving DecidableEq

/-- Items of a DataWordStatement; `setUpEntryPoint` only inspects whether
the first item is a LabelCall. -/
inductive WordItem
  | labelCall (LabelName : String)
  | word (v : Int)
deriving DecidableEq

/-- AST statement nodes as the two visitors see them. `other` stands for
any node kind that none of the source type switches match. -/
inductive Node
  | assign (VarName : String) (Value : Int)
  | instr (s : InstructionStatement)
  | dataStmt (Offset : Int) (dataList : List DataItem)
  | dataWordStmt (Offset : Int) (dataList : List WordItem)
  | labeled (LabelName : String)
  | other
deriving DecidableEq

/-- Instruction: an encoded instruction (originating statement, opcode,
byte size), as in the source struct. -/
structure Instruction where
  StatementAst : InstructionStatement
  OpCode : Nat
  OpSize : Nat
deriving DecidableEq

/-- Errors produced by `compileInstruction`. In the source these are
formatted strings carrying the source line and, for the unrecognized
cases, the original-case mnemonic; they are kept structured here so that
the carried data is explicit. -/
inductive CompileErr
  | unrecognizedImplied (Line : Int) (OpName : String)
  | unrecognizedImmediate (Line : Int) (OpName : String)
  | unrecognizedAbsoluteX (Line : Int) (OpName : String)
  | unrecognizedAbsoluteY (Line : Int) (OpName : String)
  | registerMustBeXY (Line : Int)
deriving DecidableEq

/-- strings.ToLower, per character (the mnemonics and register designators
involved are ASCII). Lean's own String.toLower is defined by well-founded
recursion over byte positions, which the kernel cannot evaluate, so the
per-character map over the string's character list is used instead. -/
def strToLower (s : String) : String := ⟨s.data.map Char.toLower⟩

/-- The implied-mode opcode table (var impliedOpcode). -/
def impliedOpcode : List (String × Nat) :=
  [("brk", 0x00), ("clc", 0x18), ("cld", 0xd8), ("cli", 0x58), ("clv", 0xb8),
   ("dex", 0xca), ("dey", 0x88), ("inx", 0xe8), ("iny", 0xc8), ("nop", 0xea),
   ("pha", 0x48), ("php", 0x08), ("pla", 0x68), ("plp", 0x28), ("rti", 0x40),
   ("rts", 0x60), ("sec", 0x38), ("sed", 0xf8), ("sei", 0x78), ("tax", 0xaa),
   ("tay", 0xa8), ("tsx", 0xba), ("txa", 0x8a), ("txs", 0x9a), ("tya", 0x98)]

/-- The immediate-mode opcode table (var immediateOpcode). -/
def immediateOpcode : List (String × Nat) :=
  [("adc", 0x69), ("and", 0x29), ("cmp", 0xc9), ("cpx", 0xe0), ("cpy", 0xc0),
   ("eor", 0x49), ("lda", 0xa9), ("ldx", 0xa2), ("ldy", 0xa0), ("ora", 0x09),
   ("sbc", 0xe9)]

/-- The absolute-indexed-by-X opcode table (var absIndexedXOpcode). -/
def absIndexedXOpcode : List (String × Nat) :=
  [("adc", 0x7d), ("and", 0x3d), ("asl", 0x1e), ("cmp", 0xdd), ("dec", 0xde),
   ("eor", 0x5d), ("inc", 0xfe), ("lda", 0xbd), ("ldy", 0xbc), ("lsr", 0x5e),
   ("ora", 0x1d), ("rol", 0x3e), ("ror", 0x7e), ("sbc", 0xfd), ("sta", 0x9d)]

/-- The absolute-indexed-by-Y opcode table (var absIndexedYOpcode). -/
def absIndexedYOpcode : List (String × Nat) :=
  [("adc", 0x79), ("and", 0x39), ("cmp", 0xd9), ("eor", 0x59), ("lda", 0xb9),
   ("ldx", 0xbe), ("ora", 0x19), ("sbc", 0xf9), ("sta", 0x99)]

/-- compileInstruction: dispatch on the instruction shape, lower-case the
mnemonic, look it up in the matching table; sizes are 1 (implied),
2 (immediate), 3 (absolute indexed). For the indexed shape the register
designator is checked (case-insensitively) before the table lookup.
The Go `panic("Unrecognized instruction type")` for a shape outside the
type switch is outside this total model, whose statement type has exactly
the three switched-on shapes. -/
def compileInstruction (s : InstructionStatement) : Except CompileErr Instruction :=
  match s with
  | .implied line opName =>
    match impliedOpcode.lookup (strToLower opName) with
    | some opcode => .ok ⟨s, opcode, 1⟩
    | none => .error (.unrecognizedImplied line opName)
  | .immediate line opName _ =>
    match immediateOpcode.lookup (strToLower opName) with
    | some opcode => .ok ⟨s, opcode, 2⟩
    | none => .error (.unrecognizedImmediate line opName)
  | .absoluteWithLabelIndexed line opName _ registerName =>
    if strToLower registerName = "x" then
      match absIndexedXOpcode.lookup (strToLower opName) with
      | some opcode => .ok ⟨s, opcode, 3⟩
      | none => .error (.unrecognizedAbsoluteX line opName)
    else if strToLower registerName = "y" then
      match absIndexedYOpcode.lookup (strToLower opName) with
      | some opcode => .ok ⟨s, opcode, 3⟩
      | none => .error (.unrecognizedAbsoluteY line opName)
    else
      .error (.registerMustBeXY line)

/-- Go map assignment `m[k] = v`: overwrite the binding if the key is
present, extend otherwise. -/
def mapInsert {α : Type} (m : List (String × α)) (k : String) (v : α) : List (String × α) :=
  match m with
  | [] => [(k, v)]
  | (k2, v2) :: rest => if k2 = k then (k, v) :: rest else (k2, v2) :: mapInsert rest k v

/-- Program: result of the flat collection walk (struct Program).
`Labels` is declared in the source struct but never written by the code
under verification. -/
structure Program where
  Variables : List (String × Int)
  Labels : List (String × Int)
  Instructions : List Instruction
  Errors : List CompileErr
deriving DecidableEq

/-- NewProgram: all fields empty. -/
def NewProgram : Program := ⟨[], [], [], []⟩

/-- Program.Visit: record assignments; on an instruction statement run the
selector, appending either the error or the encoded instruction. All other
node kinds are ignored by the type switch. -/
def Program.Visit (p : Program) (n : Node) : Program :=
  match n with
  | .assign varName v => { p with Variables := mapInsert p.Variables varName v }
  | .instr s =>
    match compileInstruction s with
    | .error e => { p with Errors := p.Errors ++ [e] }
    | .ok i => { p with Instructions := p.Instructions ++ [i] }
  | _ => p

/-- ProgramAST.Ast traverses the statements in source order calling
Visit on each; Program.VisitEnd is a no-op. -/
def programVisitAll (p : Program) (nodes : List Node) : Program :=
  nodes.foldl Program.Visit p

/-- ToProgram: run the collection walk and return the Program together
with the function's error return, which the source fixes to nil. -/
def ToProgram (nodes : List Node) : Program × Option String :=
  (programVisitAll NewProgram nodes, none)


/-! ### compile.go: the two-pass IR lowering -/

/-- Basic-block terminators emitted by the lowering pass: an unconditional
branch (builder.CreateBr) or unreachable (builder.CreateUnreachable). -/
inductive Terminator
  | br (target : Nat)
  | unreachable
deriving DecidableEq

/-- A basic block added to the main function: its name and its terminator,
if one has been emitted (none means still open). Blocks are identified by
their position in Compilation.blocks; block 0 is the module entry block
"Entry" created before pass 2. -/
structure BBlock where
  name : String
  term : Option Terminator
deriving DecidableEq

/-- Compilation: the state of Program.Compile. labeledData maps a label
name to the bytes of the private global emitted for it; blocks is the list
of basic blocks added to the main function; currentBlock is the index of
the currently open block, if any. The llvm.Module/llvm.Builder handles,
the mode flag (the two passes are modelled as two separate folds), and the
putChar/exit declarations and register allocas are not part of the state
the claims depend on, and are omitted. -/
structure Compilation where
  Warnings : List String
  Errors : List String
  labeledData : List (String × List Nat)
  currentValue : List Nat
  currentLabel : String
  blocks : List BBlock
  currentBlock : Option Nat
  nmiLabelName : String
  resetLabelName : String
  irqLabelName : String
  nmiBlock : Option Nat
  resetBlock : Option Nat
  irqBlock : Option Nat
deriving DecidableEq

/-- Bytes contributed by one data item: byte(*v) truncates an integer item
to one byte; a string item contributes its raw UTF-8 bytes
(bytes.Buffer.WriteString). -/
def dataItemBytes : DataItem → List Nat
  | .int v => [(v % 256).toNat]
  | .str s => s.toUTF8.toList.map (fun b => b.toNat)

/-- Bytes of a data statement's item list, in order (the loop in
dataAddStmt). Writes into a bytes.Buffer cannot fail, so the error branch
of the source loop is dead code and not modelled. -/
def itemsBytes : List DataItem → List Nat
  | [] => []
  | it :: rest => dataItemBytes it ++ itemsBytes rest

/-- The warning recorded when data has no owning label. The source renders
the statement's offset in hex; the exact rendering is abstracted. -/
def trashingMsg (offset : Int) : String := "trashing data at " ++ toString offset

/-- Compilation.dataAddStmt: with no open label the data is trashed with a
warning; otherwise the items' bytes are appended to the open buffer. -/
def Compilation.dataAddStmt (c : Compilation) (offset : Int) (dataList : List DataItem) : Compilation :=
  if c.currentLabel = "" then
    { c with Warnings := c.Warnings ++ [trashingMsg offset] }
  else
    { c with currentValue := c.currentValue ++ itemsBytes dataList }

/-- Compilation.dataStop: finalize the open buffer. Note the two early
returns of the source: when no label is open, and when the open buffer is
empty — the second leaves currentLabel in place. Otherwise the buffer
becomes a private global named after the label (modelled by its byte
contents in labeledData) and the label is cleared; the buffer itself is
not cleared (dataStart installs a fresh one). -/
def Compilation.dataStop (c : Compilation) : Compilation :=
  if c.currentLabel = "" then c
  else if c.currentValue = [] then c
  else
    { c with labeledData := mapInsert c.labeledData c.currentLabel c.currentValue,
             currentLabel := "" }

/-- Compilation.dataStart: open a fresh buffer under the label. -/
def Compilation.dataStart (c : Compilation) (labelName : String) : Compilation :=
  { c with currentLabel := labelName, currentValue := [] }

/-- Compilation.visitForDataStmts: the pass-1 type switch. A
DataWordStatement is a distinct type from *DataStatement in the source, so
it falls into the default case, like every other non-data non-label node. -/
def Compilation.visitForDataStmts (c : Compilation) (n : Node) : Compilation :=
  match n with
  | .dataStmt offset dataList => c.dataAddStmt offset dataList
  | .labeled labelName => (c.dataStop).dataStart labelName
  | _ => c.dataStop

/-- Replace the element at index i (identity when out of range; in the
source the index always exists). -/
def modifyAt (l : List BBlock) (i : Nat) (f : BBlock → BBlock) : List BBlock :=
  match l, i with
  | [], _ => []
  | b :: rest, 0 => f b :: rest
  | b :: rest, j+1 => b :: modifyAt rest j f

/-- The block at index i. -/
def nthBlock : List BBlock → Nat → Option BBlock
  | [], _ => none
  | b :: _, 0 => some b
  | _ :: rest, i+1 => nthBlock rest i

/-- SetInsertPointAtEnd on block i followed by emitting terminator t at
its end. -/
def Compilation.terminate (c : Compilation) (i : Nat) (t : Terminator) : Compilation :=
  { c with blocks := modifyAt c.blocks i (fun b => { b with term := some t }) }

/-- LabeledStatement.Compile (pass 2): skip labels already claimed as
data; otherwise add a new block named after the label, branch into it from
the currently open block if there is one, and make it current. An nmi/irq
vector label records its block and is immediately terminated with
unreachable (clearing the current block); the reset vector label records
its block and stays open. -/
def labeledStmtCompile (c : Compilation) (labelName : String) : Compilation :=
  if (c.labeledData.lookup labelName).isSome then c
  else
    let bbIdx := c.blocks.length
    let c1 := { c with blocks := c.blocks ++ [({ name := labelName, term := none } : BBlock)] }
    let c2 := match c1.currentBlock with
      | some i => c1.terminate i (.br bbIdx)
      | none => c1
    let c3 := { c2 with currentBlock := some bbIdx }
    if labelName = c3.nmiLabelName then
      let c4 := c3.terminate bbIdx .unreachable
      { c4 with nmiBlock := some bbIdx, currentBlock := none }
    else if labelName = c3.resetLabelName then
      { c3 with resetBlock := some bbIdx }
    else if labelName = c3.irqLabelName then
      let c4 := c3.terminate bbIdx .unreachable
      { c4 with irqBlock := some bbIdx, currentBlock := none }
    else c3

/-- visitForCompile: the pass-2 type switch dispatches to the node's
Compile method. In the source, LabeledStatement has the block-handling
implementation above, and ImpliedInstruction / ImmediateInstruction have
stub implementations recording a lacks-implementation error; no other
modelled node kind implements Compiler in compile.go, so the switch
ignores it. -/
def Compilation.visitForCompile (c : Compilation) (n : Node) : Compilation :=
  match n with
  | .labeled labelName => labeledStmtCompile c labelName
  | .instr s =>
    match s with
    | .implied _ _ =>
      { c with Errors := c.Errors ++ ["ImpliedInstruction lacks Compile() implementation"] }
    | .immediate _ _ _ =>
      { c with Errors := c.Errors ++ ["ImmediateInstruction lacks Compile() implementation"] }
    | .absoluteWithLabelIndexed _ _ _ _ => c
  | _ => c

/-- The outcome of setUpEntryPoint's lookup and validation for one vector
offset: the referenced label name, or the error message recorded. The
source's Sprintf calls omit the address argument, so the rendered messages
do not actually contain the address; the raw format strings are used here.
Go would panic indexing dataList[0] of an empty dc.w list; that edge case
is folded into the not-a-label error branch. -/
def setUpName (offsets : List (Int × Node)) (addr : Int) : Except String String :=
  match offsets.lookup addr with
  | none => .error ("Missing 0x%04x entry point")
  | some (.dataWordStmt _ dataList) =>
    match dataList.head? with
    | some (.labelCall labelName) => .ok labelName
    | _ => .error ("Entry point at 0x%04x must be a dc.w with a label")
  | some _ => .error ("Entry point at 0x%04x must be a dc.w")

/-- setUpEntryPoint as called for one vector: returns the errors appended
and the new value of the output string (left unchanged on failure). -/
def setUpEntryPoint (offsets : List (Int × Node)) (addr : Int) (s : String) : List String × String :=
  match setUpName offsets addr with
  | .ok labelName => ([], labelName)
  | .error e => ([e], s)

/-- The zero-value Compilation created at the start of Program.Compile. -/
def initialCompilation : Compilation :=
  { Warnings := [], Errors := [], labeledData := [], currentValue := [],
    currentLabel := "", blocks := [], currentBlock := none,
    nmiLabelName := "", resetLabelName := "", irqLabelName := "",
    nmiBlock := none, resetBlock := none, irqBlock := none }

/-- Pass 1: the data-declaration traversal over the AST in source order. -/
def dataPass (c : Compilation) (nodes : List Node) : Compilation :=
  nodes.foldl Compilation.visitForDataStmts c

/-- Pass 2: the codegen traversal over the AST in source order. -/
def pass2 (c : Compilation) (nodes : List Node) : Compilation :=
  nodes.foldl Compilation.visitForCompile c

/-- The successive states of pass 2: the state before each node, and the
final state. -/
def pass2States (c : Compilation) : List Node → List Compilation
  | [] => [c]
  | n :: ns => c :: pass2States (c.visitForCompile n) ns

/-- The state of Program.Compile just before pass 2: pass 1 has run, the
"Entry" block has been added to the main function, and the three vector
offsets have been resolved (0xfffa nmi, 0xfffc reset, 0xfffe irq), each
failing resolution appending its error and leaving that label name as it
was (the zero value ""). -/
def prePass2 (offsets : List (Int × Node)) (nodes : List Node) : Compilation :=
  let c := dataPass initialCompilation nodes
  let c := { c with blocks := [({ name := "Entry", term := none } : BBlock)] }
  let nmi := setUpEntryPoint offsets 0xfffa c.nmiLabelName
  let reset := setUpEntryPoint offsets 0xfffc c.resetLabelName
  let irq := setUpEntryPoint offsets 0xfffe c.irqLabelName
  { c with Errors := c.Errors ++ nmi.1 ++ reset.1 ++ irq.1,
           nmiLabelName := nmi.2, resetLabelName := reset.2, irqLabelName := irq.2 }

/-- Lines 246-249 of Program.Compile: close off the final unterminated
basic block with unreachable. -/
def closeFinalBlock (c : Compilation) : Compilation :=
  match c.currentBlock with
  | some i => c.terminate i .unreachable
  | none => c

/-- Lines 252-267 of Program.Compile: check that the three vector blocks
were set, appending the missing-entry-point error and returning on the
first unset one in the order nmi, reset, irq; on success branch from the
entry block (index 0) into the reset block. The Bool records whether the
pipeline goes on to llvm.VerifyModule and serialization. -/
def hookUpEntryPoints (c : Compilation) : Compilation × Bool :=
  match c.nmiBlock, c.resetBlock, c.irqBlock with
  | none, _, _ => ({ c with Errors := c.Errors ++ ["missing nmi entry point"] }, false)
  | some _, none, _ => ({ c with Errors := c.Errors ++ ["missing reset entry point"] }, false)
  | some _, some _, none => ({ c with Errors := c.Errors ++ ["missing irq entry point"] }, false)
  | some _, some resetIdx, some _ => (c.terminate 0 (.br resetIdx), true)

/-- Program.Compile up to the point where the module would be verified:
pass 1, entry-block creation, vector resolution, pass 2, closing the final
open block, and hooking up the entry points. `offsets` is the Program's
offsets index mapping absolute offsets to their occupying statements;
`nodes` is the same program's AST in source order. -/
def compileProgram (offsets : List (Int × Node)) (nodes : List Node) : Compilation × Bool :=
  let c := prePass2 offsets nodes
  let c := pass2 c nodes
  let c := closeFinalBlock c
  hookUpEntryPoints c

/-- The names of the blocks added to the main function, in creation order. -/
def blockNames (c : Compilation) : List String := c.blocks.map (fun b => b.name)

/-- The terminator slot of block i: none when there is no block i, some of
its optional terminator otherwise. -/
def termAt (c : Compilation) (i : Nat) : Option (Option Terminator) :=
  (nthBlock c.blocks i).map (fun b => b.term)

/-- Block i exists in the list and is unterminated. -/
def openL (bs : List BBlock) (i : Nat) : Prop :=
  (nthBlock bs i).map (fun b => b.term) = some none

instance (bs : List BBlock) (i : Nat) : Decidable (openL bs i) :=
  inferInstanceAs (Decidable ((nthBlock bs i).map (fun b => b.term) = some none))

/-- Block i of the compilation exists and is unterminated. -/
def Compilation.blockOpenAt (c : Compilation) (i : Nat) : Prop := openL c.blocks i

instance (c : Compilation) (i : Nat) : Decidable (c.blockOpenAt i) :=
  inferInstanceAs (Decidable (openL c.blocks i))

/-- Whether a node is a data-declaration statement. -/
def Node.isDataStmt : Node → Bool
  | .dataStmt _ _ => true
  | _ => false

/-- Whether a node is a data-declaration or a labeled statement. -/
def Node.isDataOrLabeled : Node → Bool
  | .dataStmt _ _ => true
  | .labeled _ => true
  | _ => false



/-! ### Lemmas about the instruction selector and the flat collector -/

theorem implied_lookup_ok (line : Int) (name : String) (op : Nat)
    (h : impliedOpcode.lookup (strToLower name) = some op) :
    compileInstruction (.implied line name) = .ok ⟨.implied line name, op, 1⟩ := by
  simp only [compileInstruction, h]

theorem impliedOpcode_keys_lower :
    ∀ p ∈ impliedOpcode, impliedOpcode.lookup (strToLower p.1) = some p.2 := by decide

/-- The selection outcome of a node, error side: some e when the node is
an instruction statement the selector rejects with e. -/
def selectionError (n : Node) : Option CompileErr :=
  match n with
  | .instr s =>
    match compileInstruction s with
    | .error e => some e
    | .ok _ => none
  | _ => none

/-- The selection outcome of a node, success side. -/
def selectionOk (n : Node) : Option Instruction :=
  match n with
  | .instr s =>
    match compileInstruction s with
    | .ok i => some i
    | .error _ => none
  | _ => none

theorem visit_errors (p : Program) (n : Node) :
    (p.Visit n).Errors = p.Errors ++ (selectionError n).toList
    ∧ (p.Visit n).Instructions = p.Instructions ++ (selectionOk n).toList := by
  cases n with
  | instr s =>
    cases h : compileInstruction s <;>
      simp [Program.Visit, selectionError, selectionOk, h]
  | assign nm v => simp [Program.Visit, selectionError, selectionOk]
  | dataStmt o l => simp [Program.Visit, selectionError, selectionOk]
  | dataWordStmt o l => simp [Program.Visit, selectionError, selectionOk]
  | labeled nm => simp [Program.Visit, selectionError, selectionOk]
  | other => simp [Program.Visit, selectionError, selectionOk]

theorem visitAll_accum (nodes : List Node) (p : Program) :
    (programVisitAll p nodes).Errors = p.Errors ++ nodes.filterMap selectionError
    ∧ (programVisitAll p nodes).Instructions = p.Instructions ++ nodes.filterMap selectionOk := by
  induction nodes generalizing p with
  | nil => simp [programVisitAll]
  | cons n ns ih =>
    have hv := visit_errors p n
    have hrest := ih (p.Visit n)
    constructor
    · have h1 : (programVisitAll p (n :: ns)).Errors
          = (p.Visit n).Errors ++ ns.filterMap selectionError := hrest.1
      rw [h1, hv.1]
      cases hse : selectionError n <;> simp [List.filterMap_cons, hse]
    · have h1 : (programVisitAll p (n :: ns)).Instructions
          = (p.Visit n).Instructions ++ ns.filterMap selectionOk := hrest.2
      rw [h1, hv.2]
      cases hso : selectionOk n <;> simp [List.filterMap_cons, hso]

/-! ### Claim theorems: C1, C2, C9, C10 -/

/-- C1: every mnemonic in the implied table selects to the table's opcode
with size 1; an lda immediate selects to 0xa9 size 2 and an lda
absolute-indexed-by-X to 0xbd size 3; a mnemonic absent from the consulted
(implied) table fails with an unrecognized-instruction error carrying that
mnemonic. -/
theorem C1_instruction_encoding :
    (∀ (line : Int) (name : String) (op : Nat), (name, op) ∈ impliedOpcode →
      compileInstruction (.implied line name) = .ok ⟨.implied line name, op, 1⟩)
    ∧ (∀ (line v : Int), compileInstruction (.immediate line ("lda") v) =
        .ok ⟨.immediate line ("lda") v, 0xa9, 2⟩)
    ∧ (∀ (line : Int) (lbl : String),
        compileInstruction (.absoluteWithLabelIndexed line ("lda") lbl ("X")) =
          .ok ⟨.absoluteWithLabelIndexed line ("lda") lbl ("X"), 0xbd, 3⟩)
    ∧ (∀ (line : Int) (name : String), impliedOpcode.lookup (strToLower name) = none →
        compileInstruction (.implied line name) = .error (.unrecognizedImplied line name)) := by
  refine ⟨?_, ?_, ?_, ?_⟩
  · intro line name op hmem
    exact implied_lookup_ok line name op (impliedOpcode_keys_lower (name, op) hmem)
  · intro line v
    rfl
  · intro line lbl
    rfl
  · intro line name h
    simp only [compileInstruction, h]

/-- C1 witness: concrete instances of each conjunct. -/
theorem C1_witness :
    compileInstruction (.implied 1 ("brk")) = .ok ⟨.implied 1 ("brk"), 0x00, 1⟩
    ∧ compileInstruction (.immediate 3 ("lda") 7) = .ok ⟨.immediate 3 ("lda") 7, 0xa9, 2⟩
    ∧ compileInstruction (.absoluteWithLabelIndexed 4 ("lda") ("addr") ("X")) =
        .ok ⟨.absoluteWithLabelIndexed 4 ("lda") ("addr") ("X"), 0xbd, 3⟩
    ∧ compileInstruction (.implied 2 ("xyz")) = .error (.unrecognizedImplied 2 ("xyz")) :=
  ⟨C1_instruction_encoding.1 1 ("brk") 0x00 (by decide),
   C1_instruction_encoding.2.1 3 7,
   C1_instruction_encoding.2.2.1 4 ("addr"),
   C1_instruction_encoding.2.2.2 2 ("xyz") (by decide)⟩

/-- C2: for absolute-with-label-indexed instructions, any register
designator other than X or Y (case-insensitively) fails with the
register-must-be-X-or-Y error regardless of the mnemonic; a valid X or Y
designator with a mnemonic absent from that mode's table fails with an
unrecognized-instruction error. -/
theorem C2_register_designator :
    (∀ (line : Int) (name lbl reg : String),
      strToLower reg ≠ "x" → strToLower reg ≠ "y" →
      compileInstruction (.absoluteWithLabelIndexed line name lbl reg) =
        .error (.registerMustBeXY line))
    ∧ (∀ (line : Int) (name lbl reg : String), strToLower reg = "x" →
      absIndexedXOpcode.lookup (strToLower name) = none →
      compileInstruction (.absoluteWithLabelIndexed line name lbl reg) =
        .error (.unrecognizedAbsoluteX line name))
    ∧ (∀ (line : Int) (name lbl reg : String), strToLower reg = "y" →
      absIndexedYOpcode.lookup (strToLower name) = none →
      compileInstruction (.absoluteWithLabelIndexed line name lbl reg) =
        .error (.unrecognizedAbsoluteY line name)) := by
  refine ⟨?_, ?_, ?_⟩
  · intro line name lbl reg hx hy
    simp [compileInstruction, hx, hy]
  · intro line name lbl reg hx h
    simp [compileInstruction, hx, h]
  · intro line name lbl reg hy h
    simp [compileInstruction, hy, h]

/-- C2 witness: an invalid designator with a valid mnemonic, and valid
X/Y designators with mnemonics missing from the respective tables. -/
theorem C2_witness :
    compileInstruction (.absoluteWithLabelIndexed 5 ("lda") ("tbl") ("q")) =
      .error (.registerMustBeXY 5)
    ∧ compileInstruction (.absoluteWithLabelIndexed 6 ("tax") ("tbl") ("X")) =
      .error (.unrecognizedAbsoluteX 6 ("tax"))
    ∧ compileInstruction (.absoluteWithLabelIndexed 7 ("inc") ("tbl") ("y")) =
      .error (.unrecognizedAbsoluteY 7 ("inc")) :=
  ⟨C2_register_designator.1 5 ("lda") ("tbl") ("q") (by decide) (by decide),
   C2_register_designator.2.1 6 ("tax") ("tbl") ("X") (by decide) (by decide),
   C2_register_designator.2.2 7 ("inc") ("tbl") ("y") (by decide) (by decide)⟩

/-- C9: each visited instruction statement contributes exactly one of an
appended encoded instruction or an appended error, the traversal never
halts, and over a whole program the error and instruction lists are
exactly the per-statement selection outcomes in source order. -/
theorem C9_collector_totality (nodes : List Node) :
    (ToProgram nodes).1.Errors = nodes.filterMap selectionError
    ∧ (ToProgram nodes).1.Instructions = nodes.filterMap selectionOk
    ∧ (∀ (p : Program) (s : InstructionStatement),
        (∃ i, compileInstruction s = .ok i
          ∧ p.Visit (.instr s) = { p with Instructions := p.Instructions ++ [i] })
        ∨ (∃ e, compileInstruction s = .error e
          ∧ p.Visit (.instr s) = { p with Errors := p.Errors ++ [e] })) := by
  have h := visitAll_accum nodes NewProgram
  refine ⟨?_, ?_, ?_⟩
  · simpa [ToProgram, NewProgram, programVisitAll] using h.1
  · simpa [ToProgram, NewProgram, programVisitAll] using h.2
  · intro p s
    cases hc : compileInstruction s with
    | ok i => exact Or.inl ⟨i, rfl, by simp [Program.Visit, hc]⟩
    | error e => exact Or.inr ⟨e, rfl, by simp [Program.Visit, hc]⟩

/-- C10: ToProgram's error return is nil unconditionally; every selection
failure is reported only through the accumulated Errors list of the
returned Program. -/
theorem C10_nil_error_return (nodes : List Node) :
    (ToProgram nodes).2 = none
    ∧ ∀ (s : InstructionStatement) (e : CompileErr), Node.instr s ∈ nodes →
        compileInstruction s = .error e → e ∈ (ToProgram nodes).1.Errors := by
  constructor
  · rfl
  · intro s e hmem herr
    have h := (visitAll_accum nodes NewProgram).1
    have h2 : (ToProgram nodes).1.Errors = nodes.filterMap selectionError := by
      simpa [ToProgram, NewProgram, programVisitAll] using h
    rw [h2]
    exact List.mem_filterMap.mpr ⟨Node.instr s, hmem, by simp [selectionError, herr]⟩

/-- C10 witness: a program with one unrecognized instruction. -/
theorem C10_witness :
    (ToProgram [.instr (.implied 9 ("xyz"))]).2 = none
    ∧ CompileErr.unrecognizedImplied 9 ("xyz") ∈ (ToProgram [.instr (.implied 9 ("xyz"))]).1.Errors :=
  ⟨(C10_nil_error_return [.instr (.implied 9 ("xyz"))]).1,
   (C10_nil_error_return [.instr (.implied 9 ("xyz"))]).2 (.implied 9 ("xyz"))
     (.unrecognizedImplied 9 ("xyz")) (by decide) (by rfl)⟩

/-! ### Lemmas about pass 1 (data-segment extraction) -/

/-- The concatenated bytes of a run of data statements (offset, items). -/
def dsBytes : List (Int × List DataItem) → List Nat
  | [] => []
  | p :: rest => itemsBytes p.2 ++ dsBytes rest

theorem dataPass_data_run (ds : List (Int × List DataItem)) (c : Compilation)
    (h : ¬ c.currentLabel = "") :
    dataPass c (ds.map (fun p => Node.dataStmt p.1 p.2))
      = { c with currentValue := c.currentValue ++ dsBytes ds } := by
  induction ds generalizing c with
  | nil => simp [dataPass, dsBytes]
  | cons p rest ih =>
    have hadd : c.visitForDataStmts (Node.dataStmt p.1 p.2)
        = { c with currentValue := c.currentValue ++ itemsBytes p.2 } := by
      simp [Compilation.visitForDataStmts, Compilation.dataAddStmt, h]
    have hstep : dataPass c ((p :: rest).map (fun p => Node.dataStmt p.1 p.2))
        = dataPass (c.visitForDataStmts (Node.dataStmt p.1 p.2))
            (rest.map (fun p => Node.dataStmt p.1 p.2)) := rfl
    rw [hstep, hadd, ih { c with currentValue := c.currentValue ++ itemsBytes p.2 } h]
    simp [dsBytes]

theorem visit_nondata_labeledData (n : Node) (hn : n.isDataStmt = false) (d : Compilation) :
    (d.visitForDataStmts n).labeledData = (d.dataStop).labeledData := by
  cases n <;> first
    | rfl
    | simp [Node.isDataStmt] at hn

/-! ### Claim theorems: C5, C6 -/

/-- C5: a label immediately followed by a run of data statements and then
a non-data statement yields exactly one finalized global, named after the
label, holding the concatenation in source order of the declarations'
bytes (integer items as single bytes, string items as their raw bytes);
when the run contributes zero bytes, no global is emitted at all. -/
theorem C5_data_extraction (c : Compilation) (L : String)
    (ds : List (Int × List DataItem)) (n : Node)
    (hc : c.currentLabel = "") (hL : L ≠ "") (hn : n.isDataStmt = false) :
    (dsBytes ds ≠ [] →
      (dataPass c (Node.labeled L :: (ds.map (fun p => Node.dataStmt p.1 p.2) ++ [n]))).labeledData
        = mapInsert c.labeledData L (dsBytes ds))
    ∧ (dsBytes ds = [] →
      (dataPass c (Node.labeled L :: (ds.map (fun p => Node.dataStmt p.1 p.2) ++ [n]))).labeledData
        = c.labeledData) := by
  have h1 : c.visitForDataStmts (Node.labeled L)
      = { c with currentLabel := L, currentValue := [] } := by
    simp [Compilation.visitForDataStmts, Compilation.dataStop, Compilation.dataStart, hc]
  have h2 : dataPass ({ c with currentLabel := L, currentValue := [] } : Compilation)
        (ds.map (fun p => Node.dataStmt p.1 p.2))
      = { c with currentLabel := L, currentValue := dsBytes ds } := by
    rw [dataPass_data_run _ _ hL]
    simp
  have hsplit : dataPass c (Node.labeled L :: (ds.map (fun p => Node.dataStmt p.1 p.2) ++ [n]))
      = (({ c with currentLabel := L, currentValue := dsBytes ds } : Compilation)).visitForDataStmts n := by
    show dataPass (c.visitForDataStmts (Node.labeled L))
        (ds.map (fun p => Node.dataStmt p.1 p.2) ++ [n]) = _
    rw [h1]
    show List.foldl Compilation.visitForDataStmts _ _ = _
    rw [List.foldl_append]
    show (dataPass _ _).visitForDataStmts n = _
    rw [h2]
  rw [hsplit, visit_nondata_labeledData n hn]
  constructor
  · intro hbytes
    simp [Compilation.dataStop, hL, hbytes]
  · intro hbytes
    simp [Compilation.dataStop, hbytes]

/-- C5 witness: a two-byte run under label L is finalized into exactly
that global; a label followed by no data bytes yields no global. -/
theorem C5_witness :
    (dataPass initialCompilation
        [Node.labeled ("L"), Node.dataStmt 0 [DataItem.int 1, DataItem.int 2], Node.other]).labeledData
      = mapInsert initialCompilation.labeledData ("L") (dsBytes [(0, [DataItem.int 1, DataItem.int 2])])
    ∧ (dataPass initialCompilation [Node.labeled ("M"), Node.other]).labeledData
      = initialCompilation.labeledData := by
  constructor
  · exact (C5_data_extraction initialCompilation ("L") [(0, [DataItem.int 1, DataItem.int 2])]
      Node.other rfl (by decide) rfl).1 (by decide)
  · exact (C5_data_extraction initialCompilation ("M") [] Node.other rfl (by decide) rfl).2 rfl

/-- C6 counterexample: start from the fresh state, process label L, then a
non-data non-label statement (the open buffer is empty, so dataStop's
early return leaves the label open), then a data statement. The claim says
the extractor state would now be no-open-buffer and the data would be
trashed with a warning; instead the label is still open, the byte is
appended, there is no warning, and the byte is even finalized into a
global named L by a later label. -/
theorem C6_counterexample :
    (dataPass initialCompilation
        [Node.labeled ("L"), Node.other, Node.dataStmt 0 [DataItem.int 5]]).currentLabel = "L"
    ∧ (dataPass initialCompilation
        [Node.labeled ("L"), Node.other, Node.dataStmt 0 [DataItem.int 5]]).currentValue = [5]
    ∧ (dataPass initialCompilation
        [Node.labeled ("L"), Node.other, Node.dataStmt 0 [DataItem.int 5]]).Warnings = []
    ∧ (dataPass initialCompilation
        [Node.labeled ("L"), Node.other, Node.dataStmt 0 [DataItem.int 5], Node.labeled ("M")]).labeledData
      = [("L", [5])] :=
  ⟨by decide, by decide, by decide, by decide⟩

/-- C6 (amended): after the extractor processes a statement that is
neither a data declaration nor a labeled statement, the buffer is closed
exactly when a non-empty buffer was open (finalizing it); an open empty
buffer remains open under its label, and a subsequent data statement is
appended to it. A data statement processed while no buffer is open is
discarded with a trashed-data warning and changes nothing else. -/
theorem C6_amended_extractor_state :
    (∀ (c : Compilation) (n : Node), n.isDataOrLabeled = false →
      (c.visitForDataStmts n).currentLabel
          = (if c.currentLabel ≠ "" ∧ c.currentValue ≠ [] then "" else c.currentLabel)
        ∧ (c.visitForDataStmts n).currentValue = c.currentValue)
    ∧ (∀ (c : Compilation) (offset : Int) (dataList : List DataItem), c.currentLabel = "" →
      c.visitForDataStmts (.dataStmt offset dataList)
        = { c with Warnings := c.Warnings ++ [trashingMsg offset] })
    ∧ (∀ (c : Compilation) (offset : Int) (dataList : List DataItem), ¬ c.currentLabel = "" →
      c.visitForDataStmts (.dataStmt offset dataList)
        = { c with currentValue := c.currentValue ++ itemsBytes dataList }) := by
  refine ⟨?_, ?_, ?_⟩
  · intro c n hn
    have hvd : (c.visitForDataStmts n) = c.dataStop := by
      cases n <;> first
        | rfl
        | simp [Node.isDataOrLabeled] at hn
    rw [hvd]
    by_cases h1 : c.currentLabel = ""
    · constructor <;> simp [Compilation.dataStop, h1]
    · by_cases h2 : c.currentValue = []
      · constructor <;> simp [Compilation.dataStop, h1, h2]
      · constructor <;> simp [Compilation.dataStop, h1, h2]
  · intro c offset dataList h
    simp [Compilation.visitForDataStmts, Compilation.dataAddStmt, h]
  · intro c offset dataList h
    simp [Compilation.visitForDataStmts, Compilation.dataAddStmt, h]

/-- C6 amended witness: the empty-open-buffer case keeps label L open
across a non-data statement; the no-open-buffer case records the trashing
warning; the open case appends the bytes. -/
theorem C6_witness :
    ((initialCompilation.dataStart ("L")).visitForDataStmts Node.other).currentLabel = "L"
    ∧ initialCompilation.visitForDataStmts (Node.dataStmt 3 [DataItem.int 9])
        = { initialCompilation with Warnings := initialCompilation.Warnings ++ [trashingMsg 3] }
    ∧ (initialCompilation.dataStart ("L")).visitForDataStmts (Node.dataStmt 0 [DataItem.int 5])
        = { initialCompilation.dataStart ("L") with
            currentValue := (initialCompilation.dataStart ("L")).currentValue ++ itemsBytes [DataItem.int 5] } := by
  refine ⟨?_, ?_, ?_⟩
  · have h := (C6_amended_extractor_state.1 (initialCompilation.dataStart ("L")) Node.other rfl).1
    simpa using h
  · exact C6_amended_extractor_state.2.1 initialCompilation 3 [DataItem.int 9] rfl
  · exact C6_amended_extractor_state.2.2 (initialCompilation.dataStart ("L")) 0
      [DataItem.int 5] (by decide)

/-! ### Lemmas about pass 2 (control-flow lowering) and the pipeline -/

theorem dataStop_pres (c : Compilation) :
    (c.dataStop).nmiLabelName = c.nmiLabelName
    ∧ (c.dataStop).resetLabelName = c.resetLabelName
    ∧ (c.dataStop).irqLabelName = c.irqLabelName
    ∧ (c.dataStop).nmiBlock = c.nmiBlock
    ∧ (c.dataStop).resetBlock = c.resetBlock
    ∧ (c.dataStop).irqBlock = c.irqBlock
    ∧ (c.dataStop).currentBlock = c.currentBlock
    ∧ (c.dataStop).blocks = c.blocks := by
  unfold Compilation.dataStop
  split_ifs <;> simp

theorem visitForDataStmts_pres (c : Compilation) (n : Node) :
    (c.visitForDataStmts n).nmiLabelName = c.nmiLabelName
    ∧ (c.visitForDataStmts n).resetLabelName = c.resetLabelName
    ∧ (c.visitForDataStmts n).irqLabelName = c.irqLabelName
    ∧ (c.visitForDataStmts n).nmiBlock = c.nmiBlock
    ∧ (c.visitForDataStmts n).resetBlock = c.resetBlock
    ∧ (c.visitForDataStmts n).irqBlock = c.irqBlock
    ∧ (c.visitForDataStmts n).currentBlock = c.currentBlock
    ∧ (c.visitForDataStmts n).blocks = c.blocks := by
  cases n with
  | dataStmt o l =>
    unfold Compilation.visitForDataStmts Compilation.dataAddStmt
    split_ifs <;> simp
  | labeled nm =>
    have h := dataStop_pres c
    unfold Compilation.visitForDataStmts Compilation.dataStart
    exact ⟨h.1, h.2.1, h.2.2.1, h.2.2.2.1, h.2.2.2.2.1, h.2.2.2.2.2.1,
      h.2.2.2.2.2.2.1, h.2.2.2.2.2.2.2⟩
  | assign nm v => exact dataStop_pres c
  | instr s => exact dataStop_pres c
  | dataWordStmt o l => exact dataStop_pres c
  | other => exact dataStop_pres c

theorem dataPass_pres (nodes : List Node) (c : Compilation) :
    (dataPass c nodes).nmiLabelName = c.nmiLabelName
    ∧ (dataPass c nodes).resetLabelName = c.resetLabelName
    ∧ (dataPass c nodes).irqLabelName = c.irqLabelName
    ∧ (dataPass c nodes).nmiBlock = c.nmiBlock
    ∧ (dataPass c nodes).resetBlock = c.resetBlock
    ∧ (dataPass c nodes).irqBlock = c.irqBlock
    ∧ (dataPass c nodes).currentBlock = c.currentBlock := by
  induction nodes generalizing c with
  | nil => exact ⟨rfl, rfl, rfl, rfl, rfl, rfl, rfl⟩
  | cons n ns ih =>
    have h := visitForDataStmts_pres c n
    have hr := ih (c.visitForDataStmts n)
    exact ⟨hr.1.trans h.1, hr.2.1.trans h.2.1, hr.2.2.1.trans h.2.2.1,
      hr.2.2.2.1.trans h.2.2.2.1, hr.2.2.2.2.1.trans h.2.2.2.2.1,
      hr.2.2.2.2.2.1.trans h.2.2.2.2.2.1, hr.2.2.2.2.2.2.trans h.2.2.2.2.2.2.1⟩

theorem labeledCompile_pres (c : Compilation) (nm : String) :
    (labeledStmtCompile c nm).labeledData = c.labeledData
    ∧ (labeledStmtCompile c nm).Errors = c.Errors
    ∧ (labeledStmtCompile c nm).Warnings = c.Warnings
    ∧ (labeledStmtCompile c nm).nmiLabelName = c.nmiLabelName
    ∧ (labeledStmtCompile c nm).resetLabelName = c.resetLabelName
    ∧ (labeledStmtCompile c nm).irqLabelName = c.irqLabelName := by
  by_cases h : (c.labeledData.lookup nm).isSome
  · rw [labeledStmtCompile, if_pos h]
    exact ⟨rfl, rfl, rfl, rfl, rfl, rfl⟩
  · cases hcur : c.currentBlock <;>
      rw [labeledStmtCompile, if_neg h] <;>
      simp only [hcur] <;>
      split_ifs <;>
      simp [Compilation.terminate]

theorem visitForCompile_pres (c : Compilation) (n : Node) :
    (c.visitForCompile n).labeledData = c.labeledData
    ∧ (c.visitForCompile n).nmiLabelName = c.nmiLabelName
    ∧ (c.visitForCompile n).resetLabelName = c.resetLabelName
    ∧ (c.visitForCompile n).irqLabelName = c.irqLabelName := by
  cases n with
  | labeled nm =>
    have h := labeledCompile_pres c nm
    exact ⟨h.1, h.2.2.2.1, h.2.2.2.2.1, h.2.2.2.2.2⟩
  | instr s => cases s <;> exact ⟨rfl, rfl, rfl, rfl⟩
  | assign nm v => exact ⟨rfl, rfl, rfl, rfl⟩
  | dataStmt o l => exact ⟨rfl, rfl, rfl, rfl⟩
  | dataWordStmt o l => exact ⟨rfl, rfl, rfl, rfl⟩
  | other => exact ⟨rfl, rfl, rfl, rfl⟩

theorem pass2_pres (nodes : List Node) (c : Compilation) :
    (pass2 c nodes).labeledData = c.labeledData
    ∧ (pass2 c nodes).nmiLabelName = c.nmiLabelName
    ∧ (pass2 c nodes).resetLabelName = c.resetLabelName
    ∧ (pass2 c nodes).irqLabelName = c.irqLabelName := by
  induction nodes generalizing c with
  | nil => exact ⟨rfl, rfl, rfl, rfl⟩
  | cons n ns ih =>
    have h := visitForCompile_pres c n
    have hr := ih (c.visitForCompile n)
    exact ⟨hr.1.trans h.1, hr.2.1.trans h.2.1, hr.2.2.1.trans h.2.2.1,
      hr.2.2.2.trans h.2.2.2⟩

theorem visitForCompile_errors (c : Compilation) (n : Node) :
    ∃ ext, (c.visitForCompile n).Errors = c.Errors ++ ext := by
  cases n with
  | labeled nm =>
    refine ⟨[], ?_⟩
    show (labeledStmtCompile c nm).Errors = c.Errors ++ []
    rw [(labeledCompile_pres c nm).2.1, List.append_nil]
  | instr s =>
    cases s with
    | implied l o => exact ⟨_, rfl⟩
    | immediate l o v => exact ⟨_, rfl⟩
    | absoluteWithLabelIndexed l o lb r => exact ⟨[], by simp [Compilation.visitForCompile]⟩
  | assign nm v => exact ⟨[], by simp [Compilation.visitForCompile]⟩
  | dataStmt o l => exact ⟨[], by simp [Compilation.visitForCompile]⟩
  | dataWordStmt o l => exact ⟨[], by simp [Compilation.visitForCompile]⟩
  | other => exact ⟨[], by simp [Compilation.visitForCompile]⟩

theorem pass2_errors (nodes : List Node) (c : Compilation) :
    ∃ ext, (pass2 c nodes).Errors = c.Errors ++ ext := by
  induction nodes generalizing c with
  | nil => exact ⟨[], by simp [pass2]⟩
  | cons n ns ih =>
    obtain ⟨e1, h1⟩ := visitForCompile_errors c n
    obtain ⟨e2, h2⟩ := ih (c.visitForCompile n)
    exact ⟨e1 ++ e2, by rw [show pass2 c (n :: ns) = pass2 (c.visitForCompile n) ns from rfl,
      h2, h1, List.append_assoc]⟩

theorem modifyAt_term_names (l : List BBlock) (i : Nat) (t : Terminator) :
    (modifyAt l i (fun b => { b with term := some t })).map (fun b => b.name)
      = l.map (fun b => b.name) := by
  induction l generalizing i with
  | nil => rfl
  | cons b rest ih =>
    cases i with
    | zero => simp [modifyAt]
    | succ j => simp [modifyAt, ih]

theorem labeledCompile_names (c : Compilation) (nm : String)
    (h : (c.labeledData.lookup nm).isSome = false) :
    blockNames (labeledStmtCompile c nm) = blockNames c ++ [nm] := by
  unfold labeledStmtCompile
  simp only [h, Bool.false_eq_true, if_false]
  cases hcur : c.currentBlock <;>
    split_ifs <;>
    simp [blockNames, Compilation.terminate, modifyAt_term_names]

theorem visitForCompile_names (c : Compilation) (n : Node) :
    blockNames (c.visitForCompile n) = blockNames c
    ∨ ∃ nm, n = Node.labeled nm ∧ (c.labeledData.lookup nm).isSome = false
        ∧ blockNames (c.visitForCompile n) = blockNames c ++ [nm] := by
  cases n with
  | labeled nm =>
    by_cases h : (c.labeledData.lookup nm).isSome
    · left
      show blockNames (labeledStmtCompile c nm) = _
      rw [labeledStmtCompile, if_pos h]
    · right
      have hfalse : (c.labeledData.lookup nm).isSome = false := by
        cases hb : (c.labeledData.lookup nm).isSome
        · rfl
        · exact absurd hb h
      exact ⟨nm, rfl, hfalse, labeledCompile_names c nm hfalse⟩
  | instr s => cases s <;> exact Or.inl rfl
  | assign nm v => exact Or.inl rfl
  | dataStmt o l => exact Or.inl rfl
  | dataWordStmt o l => exact Or.inl rfl
  | other => exact Or.inl rfl

theorem pass2_names_ext (nodes : List Node) (c : Compilation) :
    ∃ ext, blockNames (pass2 c nodes) = blockNames c ++ ext := by
  induction nodes generalizing c with
  | nil => exact ⟨[], by simp [pass2]⟩
  | cons n ns ih =>
    obtain ⟨e2, h2⟩ := ih (c.visitForCompile n)
    have hstep : pass2 c (n :: ns) = pass2 (c.visitForCompile n) ns := rfl
    rcases visitForCompile_names c n with h1 | ⟨nm, _, _, h1⟩
    · exact ⟨e2, by rw [hstep, h2, h1]⟩
    · exact ⟨[nm] ++ e2, by rw [hstep, h2, h1, List.append_assoc]⟩

theorem mem_drop1_append (x y : String) (l : List String)
    (h : x ∈ (l ++ [y]).drop 1) : x ∈ l.drop 1 ∨ x = y := by
  cases l with
  | nil => simp at h
  | cons a as =>
    have h2 : x ∈ as ∨ x = y := by simpa using h
    rcases h2 with h1 | h1
    · left; simpa using h1
    · right; exact h1

theorem mem_drop1_extend (x : String) (l ext : List String) (h : x ∈ l.drop 1) :
    x ∈ (l ++ ext).drop 1 := by
  cases l with
  | nil => simp at h
  | cons a as =>
    simp only [List.cons_append, List.drop_succ_cons, List.drop_zero] at h ⊢
    exact List.mem_append_left ext h

theorem closeFinal_pres (c : Compilation) :
    (closeFinalBlock c).labeledData = c.labeledData
    ∧ blockNames (closeFinalBlock c) = blockNames c
    ∧ (closeFinalBlock c).nmiBlock = c.nmiBlock
    ∧ (closeFinalBlock c).resetBlock = c.resetBlock
    ∧ (closeFinalBlock c).irqBlock = c.irqBlock
    ∧ (closeFinalBlock c).Errors = c.Errors := by
  unfold closeFinalBlock
  cases c.currentBlock <;>
    simp [Compilation.terminate, blockNames, modifyAt_term_names]

theorem hookUp_mem_errors (c : Compilation) (e : String) (h : e ∈ c.Errors) :
    e ∈ (hookUpEntryPoints c).1.Errors := by
  cases hn : c.nmiBlock <;> cases hr : c.resetBlock <;> cases hi : c.irqBlock <;>
    simp [hookUpEntryPoints, hn, hr, hi, List.mem_append, h, Compilation.terminate]

theorem hookUp_false (c : Compilation)
    (h : c.nmiBlock = none ∨ c.resetBlock = none ∨ c.irqBlock = none) :
    (hookUpEntryPoints c).2 = false := by
  cases hn : c.nmiBlock <;> cases hr : c.resetBlock <;> cases hi : c.irqBlock <;>
    simp_all [hookUpEntryPoints]

theorem hookUp_names_data (c : Compilation) :
    (hookUpEntryPoints c).1.labeledData = c.labeledData
    ∧ blockNames (hookUpEntryPoints c).1 = blockNames c := by
  cases hn : c.nmiBlock <;> cases hr : c.resetBlock <;> cases hi : c.irqBlock <;>
    simp [hookUpEntryPoints, hn, hr, hi, blockNames, Compilation.terminate, modifyAt_term_names]

theorem labeledCompile_vblocks (c : Compilation) (nm : String) (hne : nm ≠ "") :
    (c.nmiLabelName = "" → (labeledStmtCompile c nm).nmiBlock = c.nmiBlock)
    ∧ (c.resetLabelName = "" → (labeledStmtCompile c nm).resetBlock = c.resetBlock)
    ∧ (c.irqLabelName = "" → (labeledStmtCompile c nm).irqBlock = c.irqBlock) := by
  by_cases h : (c.labeledData.lookup nm).isSome
  · rw [labeledStmtCompile, if_pos h]
    exact ⟨fun _ => rfl, fun _ => rfl, fun _ => rfl⟩
  · cases hcur : c.currentBlock <;>
      rw [labeledStmtCompile, if_neg h] <;>
      simp only [hcur] <;>
      refine ⟨fun hname => ?_, fun hname => ?_, fun hname => ?_⟩ <;>
      split_ifs with h1 h2 h3 <;>
      first
        | rfl
        | exact absurd (h1.trans hname) hne
        | exact absurd (h2.trans hname) hne
        | exact absurd (h3.trans hname) hne

theorem visitForCompile_vblocks (c : Compilation) (n : Node) (hn : n ≠ Node.labeled "") :
    (c.nmiLabelName = "" → (c.visitForCompile n).nmiBlock = c.nmiBlock)
    ∧ (c.resetLabelName = "" → (c.visitForCompile n).resetBlock = c.resetBlock)
    ∧ (c.irqLabelName = "" → (c.visitForCompile n).irqBlock = c.irqBlock) := by
  cases n with
  | labeled nm =>
    have hne : nm ≠ "" := fun h => hn (by rw [h])
    exact labeledCompile_vblocks c nm hne
  | instr s =>
    cases s <;> exact ⟨fun _ => rfl, fun _ => rfl, fun _ => rfl⟩
  | assign nm v => exact ⟨fun _ => rfl, fun _ => rfl, fun _ => rfl⟩
  | dataStmt o l => exact ⟨fun _ => rfl, fun _ => rfl, fun _ => rfl⟩
  | dataWordStmt o l => exact ⟨fun _ => rfl, fun _ => rfl, fun _ => rfl⟩
  | other => exact ⟨fun _ => rfl, fun _ => rfl, fun _ => rfl⟩

theorem pass2_vblocks (nodes : List Node) (c : Compilation)
    (hnl : Node.labeled "" ∉ nodes) :
    (c.nmiLabelName = "" → (pass2 c nodes).nmiBlock = c.nmiBlock)
    ∧ (c.resetLabelName = "" → (pass2 c nodes).resetBlock = c.resetBlock)
    ∧ (c.irqLabelName = "" → (pass2 c nodes).irqBlock = c.irqBlock) := by
  induction nodes generalizing c with
  | nil => exact ⟨fun _ => rfl, fun _ => rfl, fun _ => rfl⟩
  | cons n ns ih =>
    have hn : n ≠ Node.labeled "" := fun h => hnl (by rw [h]; exact List.mem_cons_self _ _)
    have hnl2 : Node.labeled "" ∉ ns := fun h => hnl (List.mem_cons_of_mem _ h)
    have hstep := visitForCompile_vblocks c n hn
    have hpres := visitForCompile_pres c n
    have hrest := ih (c.visitForCompile n) hnl2
    have hcons : pass2 c (n :: ns) = pass2 (c.visitForCompile n) ns := rfl
    refine ⟨?_, ?_, ?_⟩ <;> intro hname
    · rw [hcons, hrest.1 (hpres.2.1.trans hname), hstep.1 hname]
    · rw [hcons, hrest.2.1 (hpres.2.2.1.trans hname), hstep.2.1 hname]
    · rw [hcons, hrest.2.2 (hpres.2.2.2.trans hname), hstep.2.2 hname]

theorem hookUp_vblocks (c : Compilation) :
    (hookUpEntryPoints c).1.nmiBlock = c.nmiBlock
    ∧ (hookUpEntryPoints c).1.resetBlock = c.resetBlock
    ∧ (hookUpEntryPoints c).1.irqBlock = c.irqBlock := by
  cases hn : c.nmiBlock <;> cases hr : c.resetBlock <;> cases hi : c.irqBlock <;>
    simp [hookUpEntryPoints, hn, hr, hi, Compilation.terminate]

theorem blocks_of_names_ne (c : Compilation) (h : blockNames c ≠ []) :
    ∃ b rest, c.blocks = b :: rest := by
  cases hb : c.blocks with
  | nil => exact absurd (by simp [blockNames, hb]) h
  | cons b rest => exact ⟨b, rest, rfl⟩

theorem termAt_terminate_zero (c : Compilation) (t : Terminator) (b : BBlock)
    (rest : List BBlock) (hb : c.blocks = b :: rest) :
    termAt (c.terminate 0 t) 0 = some (some t) := by
  simp [termAt, Compilation.terminate, hb, modifyAt, nthBlock]

theorem hookUp_cases (c : Compilation) (hne : blockNames c ≠ []) :
    (c.nmiBlock = none →
      "missing nmi entry point" ∈ (hookUpEntryPoints c).1.Errors
        ∧ (hookUpEntryPoints c).2 = false)
    ∧ (¬ c.nmiBlock = none → c.resetBlock = none →
      "missing reset entry point" ∈ (hookUpEntryPoints c).1.Errors
        ∧ (hookUpEntryPoints c).2 = false)
    ∧ (¬ c.nmiBlock = none → ¬ c.resetBlock = none → c.irqBlock = none →
      "missing irq entry point" ∈ (hookUpEntryPoints c).1.Errors
        ∧ (hookUpEntryPoints c).2 = false)
    ∧ (¬ c.nmiBlock = none → ¬ c.resetBlock = none → ¬ c.irqBlock = none →
      (hookUpEntryPoints c).2 = true
        ∧ ∃ i, c.resetBlock = some i
            ∧ termAt (hookUpEntryPoints c).1 0 = some (some (.br i))) := by
  obtain ⟨b, rest, hb⟩ := blocks_of_names_ne c hne
  refine ⟨fun h1 => ?_, fun h1 h2 => ?_, fun h1 h2 h3 => ?_, fun h1 h2 h3 => ?_⟩
  · rw [hookUpEntryPoints]
    simp [h1]
  · rcases hn : c.nmiBlock with _ | bn
    · exact absurd hn h1
    · rw [hookUpEntryPoints]
      simp [hn, h2]
  · rcases hn : c.nmiBlock with _ | bn
    · exact absurd hn h1
    rcases hr : c.resetBlock with _ | br2
    · exact absurd hr h2
    · rw [hookUpEntryPoints]
      simp [hn, hr, h3]
  · rcases hn : c.nmiBlock with _ | bn
    · exact absurd hn h1
    rcases hr : c.resetBlock with _ | br2
    · exact absurd hr h2
    rcases hi : c.irqBlock with _ | bi
    · exact absurd hi h3
    · have hfst : (hookUpEntryPoints c).1 = c.terminate 0 (.br br2) := by
        rw [hookUpEntryPoints]
        simp [hn, hr, hi]
      have hsnd : (hookUpEntryPoints c).2 = true := by
        rw [hookUpEntryPoints]
        simp [hn, hr, hi]
      exact ⟨hsnd, ⟨br2, rfl, by rw [hfst]; exact termAt_terminate_zero c _ b rest hb⟩⟩

/-! ### Claim theorems: C3, C4 -/

/-- C3 counterexample: with the reset vector offset 0xfffc missing from
the offsets index (nmi and irq present and well-formed), the configuration
error is recorded, but pass 2 still runs — it creates the block for label
foo, so the module has two blocks, not just Entry — contradicting the
claim that the codegen pass over the AST does not run. Verification is
still never reached. -/
theorem C3_counterexample :
    ("Missing 0x%04x entry point" ∈ (compileProgram
        [(0xfffa, Node.dataWordStmt 0 [WordItem.labelCall ("foo")]),
         (0xfffe, Node.dataWordStmt 0 [WordItem.labelCall ("foo")])]
        [Node.labeled ("foo")]).1.Errors)
    ∧ blockNames (compileProgram
        [(0xfffa, Node.dataWordStmt 0 [WordItem.labelCall ("foo")]),
         (0xfffe, Node.dataWordStmt 0 [WordItem.labelCall ("foo")])]
        [Node.labeled ("foo")]).1 = ["Entry", "foo"]
    ∧ (compileProgram
        [(0xfffa, Node.dataWordStmt 0 [WordItem.labelCall ("foo")]),
         (0xfffe, Node.dataWordStmt 0 [WordItem.labelCall ("foo")])]
        [Node.labeled ("foo")]).2 = false :=
  ⟨by decide, by decide, by decide⟩

/-- C3 (amended): when a vector offset is missing or malformed, its fatal
error is recorded and the pipeline never reaches verification or
serialization; pass 2 is not skipped, but the failing vector label name
stays empty, so (in a program with no empty-named label) that vector block
is never set and the post-pass-2 check aborts the pipeline. -/
theorem C3_amended_vector_failure (offsets : List (Int × Node)) (nodes : List Node)
    (addr : Int) (e : String)
    (haddr : addr = 0xfffa ∨ addr = 0xfffc ∨ addr = 0xfffe)
    (hfail : setUpName offsets addr = .error e)
    (hnl : Node.labeled "" ∉ nodes) :
    e ∈ (compileProgram offsets nodes).1.Errors
    ∧ (compileProgram offsets nodes).2 = false := by
  have hpres1 := dataPass_pres nodes initialCompilation
  constructor
  · have hc0 : e ∈ (prePass2 offsets nodes).Errors := by
      rcases haddr with h | h | h <;> subst h <;>
        simp [prePass2, setUpEntryPoint, hfail, List.mem_append]
    obtain ⟨ext, hext⟩ := pass2_errors nodes (prePass2 offsets nodes)
    have hmem2 : e ∈ (pass2 (prePass2 offsets nodes) nodes).Errors := by
      rw [hext]; exact List.mem_append_left _ hc0
    have hmem3 : e ∈ (closeFinalBlock (pass2 (prePass2 offsets nodes) nodes)).Errors := by
      rw [(closeFinal_pres _).2.2.2.2.2]; exact hmem2
    exact hookUp_mem_errors _ _ hmem3
  · rcases haddr with h | h | h <;> subst h
    · have hname : (prePass2 offsets nodes).nmiLabelName = "" := by
        simp only [prePass2, setUpEntryPoint, hfail]
        exact hpres1.1
      have hb0 : (prePass2 offsets nodes).nmiBlock = none := by
        simp only [prePass2]
        exact hpres1.2.2.2.1
      have h2 : (pass2 (prePass2 offsets nodes) nodes).nmiBlock = none := by
        rw [(pass2_vblocks nodes _ hnl).1 hname]; exact hb0
      exact hookUp_false _ (Or.inl ((closeFinal_pres _).2.2.1.trans h2))
    · have hname : (prePass2 offsets nodes).resetLabelName = "" := by
        simp only [prePass2, setUpEntryPoint, hfail]
        exact hpres1.2.1
      have hb0 : (prePass2 offsets nodes).resetBlock = none := by
        simp only [prePass2]
        exact hpres1.2.2.2.2.1
      have h2 : (pass2 (prePass2 offsets nodes) nodes).resetBlock = none := by
        rw [(pass2_vblocks nodes _ hnl).2.1 hname]; exact hb0
      exact hookUp_false _ (Or.inr (Or.inl ((closeFinal_pres _).2.2.2.1.trans h2)))
    · have hname : (prePass2 offsets nodes).irqLabelName = "" := by
        simp only [prePass2, setUpEntryPoint, hfail]
        exact hpres1.2.2.1
      have hb0 : (prePass2 offsets nodes).irqBlock = none := by
        simp only [prePass2]
        exact hpres1.2.2.2.2.2.1
      have h2 : (pass2 (prePass2 offsets nodes) nodes).irqBlock = none := by
        rw [(pass2_vblocks nodes _ hnl).2.2 hname]; exact hb0
      exact hookUp_false _ (Or.inr (Or.inr ((closeFinal_pres _).2.2.2.2.1.trans h2)))

/-- C3 amended witness: the missing-reset-vector program. -/
theorem C3_witness :
    ("Missing 0x%04x entry point" ∈ (compileProgram
        [(0xfffa, Node.dataWordStmt 0 [WordItem.labelCall ("bar")]),
         (0xfffe, Node.dataWordStmt 0 [WordItem.labelCall ("bar")])]
        [Node.labeled ("bar")]).1.Errors)
    ∧ (compileProgram
        [(0xfffa, Node.dataWordStmt 0 [WordItem.labelCall ("bar")]),
         (0xfffe, Node.dataWordStmt 0 [WordItem.labelCall ("bar")])]
        [Node.labeled ("bar")]).2 = false :=
  C3_amended_vector_failure
    [(0xfffa, Node.dataWordStmt 0 [WordItem.labelCall ("bar")]),
     (0xfffe, Node.dataWordStmt 0 [WordItem.labelCall ("bar")])]
    [Node.labeled ("bar")] 0xfffc "Missing 0x%04x entry point"
    (Or.inr (Or.inl rfl)) rfl (by decide)

/-- C4 counterexample: with all three vector offsets well-formed but no
labels in the program, all three vector blocks are unset after pass 2, yet
only the first unset vector (nmi) gets a missing-entry-point error: no
"missing reset entry point" error is recorded for the unset reset vector,
contradicting the claim that each unset vector gets its own error. -/
theorem C4_counterexample :
    (compileProgram
        [(0xfffa, Node.dataWordStmt 0 [WordItem.labelCall ("a")]),
         (0xfffc, Node.dataWordStmt 0 [WordItem.labelCall ("b")]),
         (0xfffe, Node.dataWordStmt 0 [WordItem.labelCall ("c")])] []).1.resetBlock = none
    ∧ ("missing reset entry point" ∉ (compileProgram
        [(0xfffa, Node.dataWordStmt 0 [WordItem.labelCall ("a")]),
         (0xfffc, Node.dataWordStmt 0 [WordItem.labelCall ("b")]),
         (0xfffe, Node.dataWordStmt 0 [WordItem.labelCall ("c")])] []).1.Errors)
    ∧ (compileProgram
        [(0xfffa, Node.dataWordStmt 0 [WordItem.labelCall ("a")]),
         (0xfffc, Node.dataWordStmt 0 [WordItem.labelCall ("b")]),
         (0xfffe, Node.dataWordStmt 0 [WordItem.labelCall ("c")])] []).2 = false :=
  ⟨by decide, by decide, by decide⟩

/-- C4 (amended): after pass 2, the first unset vector block in the order
nmi, reset, irq gets its fatal missing-entry-point error and the pipeline
does not proceed to verification/serialization; when all three are set,
the pipeline proceeds and an unconditional branch is added from the
module's outermost entry block (block 0) into the reset vector's block
specifically. -/
theorem C4_amended_entry_hookup (offsets : List (Int × Node)) (nodes : List Node) :
    ((compileProgram offsets nodes).1.nmiBlock = none →
      "missing nmi entry point" ∈ (compileProgram offsets nodes).1.Errors
        ∧ (compileProgram offsets nodes).2 = false)
    ∧ (¬ (compileProgram offsets nodes).1.nmiBlock = none →
       (compileProgram offsets nodes).1.resetBlock = none →
      "missing reset entry point" ∈ (compileProgram offsets nodes).1.Errors
        ∧ (compileProgram offsets nodes).2 = false)
    ∧ (¬ (compileProgram offsets nodes).1.nmiBlock = none →
       ¬ (compileProgram offsets nodes).1.resetBlock = none →
       (compileProgram offsets nodes).1.irqBlock = none →
      "missing irq entry point" ∈ (compileProgram offsets nodes).1.Errors
        ∧ (compileProgram offsets nodes).2 = false)
    ∧ (¬ (compileProgram offsets nodes).1.nmiBlock = none →
       ¬ (compileProgram offsets nodes).1.resetBlock = none →
       ¬ (compileProgram offsets nodes).1.irqBlock = none →
      (compileProgram offsets nodes).2 = true
        ∧ ∃ i, (compileProgram offsets nodes).1.resetBlock = some i
            ∧ termAt (compileProgram offsets nodes).1 0 = some (some (.br i))) := by
  have hnames : blockNames (closeFinalBlock (pass2 (prePass2 offsets nodes) nodes)) ≠ [] := by
    obtain ⟨ext, hext⟩ := pass2_names_ext nodes (prePass2 offsets nodes)
    rw [(closeFinal_pres _).2.1, hext]
    have hpre : blockNames (prePass2 offsets nodes) = ["Entry"] := rfl
    rw [hpre]
    simp
  have hv := hookUp_vblocks (closeFinalBlock (pass2 (prePass2 offsets nodes) nodes))
  have hre : compileProgram offsets nodes
      = hookUpEntryPoints (closeFinalBlock (pass2 (prePass2 offsets nodes) nodes)) := rfl
  rw [hre, hv.1, hv.2.1, hv.2.2]
  exact hookUp_cases (closeFinalBlock (pass2 (prePass2 offsets nodes) nodes)) hnames

/-- C4 amended witness: three distinct labels at the three vectors; the
pipeline proceeds and the entry block branches to the reset block. -/
theorem C4_witness :
    (compileProgram
        [(0xfffa, Node.dataWordStmt 0 [WordItem.labelCall ("n")]),
         (0xfffc, Node.dataWordStmt 0 [WordItem.labelCall ("r")]),
         (0xfffe, Node.dataWordStmt 0 [WordItem.labelCall ("q")])]
        [Node.labeled ("n"), Node.labeled ("r"), Node.labeled ("q")]).2 = true
    ∧ ∃ i, (compileProgram
        [(0xfffa, Node.dataWordStmt 0 [WordItem.labelCall ("n")]),
         (0xfffc, Node.dataWordStmt 0 [WordItem.labelCall ("r")]),
         (0xfffe, Node.dataWordStmt 0 [WordItem.labelCall ("q")])]
        [Node.labeled ("n"), Node.labeled ("r"), Node.labeled ("q")]).1.resetBlock = some i
      ∧ termAt (compileProgram
        [(0xfffa, Node.dataWordStmt 0 [WordItem.labelCall ("n")]),
         (0xfffc, Node.dataWordStmt 0 [WordItem.labelCall ("r")]),
         (0xfffe, Node.dataWordStmt 0 [WordItem.labelCall ("q")])]
        [Node.labeled ("n"), Node.labeled ("r"), Node.labeled ("q")]).1 0 = some (some (.br i)) :=
  (C4_amended_entry_hookup
    [(0xfffa, Node.dataWordStmt 0 [WordItem.labelCall ("n")]),
     (0xfffc, Node.dataWordStmt 0 [WordItem.labelCall ("r")]),
     (0xfffe, Node.dataWordStmt 0 [WordItem.labelCall ("q")])]
    [Node.labeled ("n"), Node.labeled ("r"), Node.labeled ("q")]).2.2.2
    (by decide) (by decide) (by decide)

/-! ### Claim theorem: C7 -/

theorem pass2_data_no_block (nodes : List Node) (c : Compilation)
    (h : ∀ nm, (c.labeledData.lookup nm).isSome = true → nm ∉ (blockNames c).drop 1) :
    ∀ nm, ((pass2 c nodes).labeledData.lookup nm).isSome = true →
      nm ∉ (blockNames (pass2 c nodes)).drop 1 := by
  induction nodes generalizing c with
  | nil => exact h
  | cons n ns ih =>
    have hstep : pass2 c (n :: ns) = pass2 (c.visitForCompile n) ns := rfl
    rw [hstep]
    refine ih (c.visitForCompile n) ?_
    intro nm hsome
    rw [(visitForCompile_pres c n).1] at hsome
    rcases visitForCompile_names c n with heq | ⟨nm2, _, hlk, heq⟩
    · rw [heq]; exact h nm hsome
    · rw [heq]
      intro hmem
      rcases mem_drop1_append nm nm2 (blockNames c) hmem with hmem2 | rfl
      · exact h nm hsome hmem2
      · simp [hsome] at hlk

theorem pass2_label_gets_block (nodes : List Node) (c : Compilation) (nm : String)
    (hmem : Node.labeled nm ∈ nodes)
    (hdata : (c.labeledData.lookup nm).isSome = false)
    (hne : blockNames c ≠ []) :
    nm ∈ (blockNames (pass2 c nodes)).drop 1 := by
  induction nodes generalizing c with
  | nil => cases hmem
  | cons n ns ih =>
    have hstep : pass2 c (n :: ns) = pass2 (c.visitForCompile n) ns := rfl
    rw [hstep]
    rcases List.mem_cons.mp hmem with heq | hmem2
    · have h1 : blockNames (c.visitForCompile n) = blockNames c ++ [nm] := by
        rw [← heq]
        exact labeledCompile_names c nm hdata
      have h2 : nm ∈ (blockNames (c.visitForCompile n)).drop 1 := by
        rw [h1]
        obtain ⟨a, as, hcons⟩ : ∃ a as, blockNames c = a :: as := by
          cases hbn : blockNames c with
          | nil => exact absurd hbn hne
          | cons a as => exact ⟨a, as, rfl⟩
        rw [hcons]
        simp
      obtain ⟨ext, hext⟩ := pass2_names_ext ns (c.visitForCompile n)
      rw [hext]
      exact mem_drop1_extend _ _ _ h2
    · refine ih (c.visitForCompile n) hmem2 ?_ ?_
      · rw [(visitForCompile_pres c n).1]; exact hdata
      · rcases visitForCompile_names c n with heq2 | ⟨nm2, _, _, heq2⟩ <;> rw [heq2]
        · exact hne
        · simp

/-- C7: every label name ends the Compilation owning a data global or a
basic block in the module, never both: a label in the data map never names
a block created by pass 2, and every label statement's name either is in
the data map or names a pass-2 block. Ownership of a basic block is
modelled as a block named after the label among the blocks added to the
main function in pass 2 (the source's basicBlocks map is declared but
never populated; the blocks live in the module). -/
theorem C7_label_exclusivity (offsets : List (Int × Node)) (nodes : List Node) :
    (∀ nm, ((compileProgram offsets nodes).1.labeledData.lookup nm).isSome = true →
      nm ∉ (blockNames (compileProgram offsets nodes).1).drop 1)
    ∧ (∀ nm, Node.labeled nm ∈ nodes →
      ((compileProgram offsets nodes).1.labeledData.lookup nm).isSome = true
        ∨ nm ∈ (blockNames (compileProgram offsets nodes).1).drop 1) := by
  have hre : compileProgram offsets nodes
      = hookUpEntryPoints (closeFinalBlock (pass2 (prePass2 offsets nodes) nodes)) := rfl
  have hhd := hookUp_names_data (closeFinalBlock (pass2 (prePass2 offsets nodes) nodes))
  have hcf := closeFinal_pres (pass2 (prePass2 offsets nodes) nodes)
  have hpre : blockNames (prePass2 offsets nodes) = ["Entry"] := rfl
  constructor
  · intro nm hsome hmem
    rw [hre, hhd.1, hcf.1] at hsome
    rw [hre, hhd.2, hcf.2.1] at hmem
    refine pass2_data_no_block nodes (prePass2 offsets nodes) ?_ nm hsome hmem
    intro nm2 _ hmem2
    rw [hpre] at hmem2
    simp at hmem2
  · intro nm hmem
    by_cases hd : ((prePass2 offsets nodes).labeledData.lookup nm).isSome = true
    · left
      rw [hre, hhd.1, hcf.1, (pass2_pres nodes _).1]
      exact hd
    · right
      rw [hre, hhd.2, hcf.2.1]
      refine pass2_label_gets_block nodes (prePass2 offsets nodes) nm hmem ?_ ?_
      · cases hb : ((prePass2 offsets nodes).labeledData.lookup nm).isSome
        · rfl
        · exact absurd hb hd
      · rw [hpre]; simp

/-- C7 witness: label D claims data, label C claims code; D owns no block
and C owns one. -/
theorem C7_witness :
    ("D" ∉ (blockNames (compileProgram ([] : List (Int × Node))
        [Node.labeled ("D"), Node.dataStmt 0 [DataItem.int 7],
         Node.labeled ("C"), Node.other]).1).drop 1)
    ∧ "C" ∈ (blockNames (compileProgram ([] : List (Int × Node))
        [Node.labeled ("D"), Node.dataStmt 0 [DataItem.int 7],
         Node.labeled ("C"), Node.other]).1).drop 1 :=
  ⟨(C7_label_exclusivity [] [Node.labeled ("D"), Node.dataStmt 0 [DataItem.int 7],
      Node.labeled ("C"), Node.other]).1 ("D") (by decide),
   ((C7_label_exclusivity [] [Node.labeled ("D"), Node.dataStmt 0 [DataItem.int 7],
      Node.labeled ("C"), Node.other]).2 ("C") (by decide)).resolve_left (by decide)⟩

/-! ### The block-termination invariant (C8) -/

theorem modifyAt_length (l : List BBlock) (i : Nat) (f : BBlock → BBlock) :
    (modifyAt l i f).length = l.length := by
  induction l generalizing i with
  | nil => rfl
  | cons a as ih => cases i <;> simp [modifyAt, ih]

theorem openL_append (l : List BBlock) (b : BBlock) (i : Nat) :
    openL (l ++ [b]) i ↔ (openL l i ∨ (i = l.length ∧ b.term = none)) := by
  induction l generalizing i with
  | nil =>
    cases i with
    | zero => simp [openL, nthBlock]
    | succ j => simp [openL, nthBlock]
  | cons a as ih =>
    cases i with
    | zero => simp [openL, nthBlock]
    | succ j => simpa [openL, nthBlock] using ih j

theorem openL_modify_some (l : List BBlock) (i j : Nat) (t : Terminator) :
    openL (modifyAt l i (fun b => { b with term := some t })) j
      ↔ (¬ j = i ∧ openL l j) := by
  induction l generalizing i j with
  | nil => simp [openL, modifyAt, nthBlock]
  | cons a as ih =>
    cases i with
    | zero =>
      cases j with
      | zero => simp [openL, modifyAt, nthBlock]
      | succ k => simp [openL, modifyAt, nthBlock]
    | succ m =>
      cases j with
      | zero => simp [openL, modifyAt, nthBlock]
      | succ k => simpa [openL, modifyAt, nthBlock] using ih m k

/-- The pass-2 block invariant: the entry block exists; every unterminated
block other than the entry block (index 0) is the current block; and the
current block, when set, is the most recently added block. -/
def pass2Inv (c : Compilation) : Prop :=
  1 ≤ c.blocks.length
  ∧ (∀ i, 1 ≤ i → openL c.blocks i → c.currentBlock = some i)
  ∧ (∀ i, c.currentBlock = some i → 1 ≤ i ∧ i + 1 = c.blocks.length)

theorem labeledCompile_inv (c : Compilation) (nm : String) (h : pass2Inv c) :
    pass2Inv (labeledStmtCompile c nm) := by
  obtain ⟨hlen, hopen, hcur⟩ := h
  by_cases hskip : (c.labeledData.lookup nm).isSome
  · rw [labeledStmtCompile, if_pos hskip]
    exact ⟨hlen, hopen, hcur⟩
  · cases hc : c.currentBlock with
    | none =>
      rw [labeledStmtCompile, if_neg hskip]
      simp only [hc]
      split_ifs with h1 h2 h3
      · refine ⟨?_, ?_, ?_⟩
        · simp only [Compilation.terminate, modifyAt_length, List.length_append]
          omega
        · intro i hi hop
          simp only [Compilation.terminate] at hop
          rcases (openL_modify_some _ _ _ _).mp hop with ⟨hne, hop2⟩
          rcases (openL_append _ _ _).mp hop2 with hop3 | ⟨heq, _⟩
          · have h5 := hopen i hi hop3
            rw [hc] at h5
            cases h5
          · exact absurd heq hne
        · intro i hcb
          cases hcb
      · refine ⟨?_, ?_, ?_⟩
        · simp only [List.length_append]
          omega
        · intro i hi hop
          rcases (openL_append _ _ _).mp hop with hop2 | ⟨heq, _⟩
          · have h5 := hopen i hi hop2
            rw [hc] at h5
            cases h5
          · rw [heq]
        · intro i hcb
          have hib : c.blocks.length = i := Option.some.inj hcb
          subst hib
          refine ⟨hlen, ?_⟩
          simp [List.length_append]
      · refine ⟨?_, ?_, ?_⟩
        · simp only [Compilation.terminate, modifyAt_length, List.length_append]
          omega
        · intro i hi hop
          simp only [Compilation.terminate] at hop
          rcases (openL_modify_some _ _ _ _).mp hop with ⟨hne, hop2⟩
          rcases (openL_append _ _ _).mp hop2 with hop3 | ⟨heq, _⟩
          · have h5 := hopen i hi hop3
            rw [hc] at h5
            cases h5
          · exact absurd heq hne
        · intro i hcb
          cases hcb
      · refine ⟨?_, ?_, ?_⟩
        · simp only [List.length_append]
          omega
        · intro i hi hop
          rcases (openL_append _ _ _).mp hop with hop2 | ⟨heq, _⟩
          · have h5 := hopen i hi hop2
            rw [hc] at h5
            cases h5
          · rw [heq]
        · intro i hcb
          have hib : c.blocks.length = i := Option.some.inj hcb
          subst hib
          refine ⟨hlen, ?_⟩
          simp [List.length_append]
    | some p =>
      rw [labeledStmtCompile, if_neg hskip]
      simp only [hc]
      split_ifs with h1 h2 h3
      · refine ⟨?_, ?_, ?_⟩
        · simp only [Compilation.terminate, modifyAt_length, List.length_append]
          omega
        · intro i hi hop
          simp only [Compilation.terminate] at hop
          rcases (openL_modify_some _ _ _ _).mp hop with ⟨hneU, hop2⟩
          rcases (openL_modify_some _ _ _ _).mp hop2 with ⟨hneP, hop3⟩
          rcases (openL_append _ _ _).mp hop3 with hop4 | ⟨heq, _⟩
          · have h5 := hopen i hi hop4
            rw [hc] at h5
            exact absurd (Option.some.inj h5).symm hneP
          · exact absurd heq hneU
        · intro i hcb
          cases hcb
      · refine ⟨?_, ?_, ?_⟩
        · simp only [Compilation.terminate, modifyAt_length, List.length_append]
          omega
        · intro i hi hop
          simp only [Compilation.terminate] at hop
          rcases (openL_modify_some _ _ _ _).mp hop with ⟨hneP, hop2⟩
          rcases (openL_append _ _ _).mp hop2 with hop3 | ⟨heq, _⟩
          · have h5 := hopen i hi hop3
            rw [hc] at h5
            exact absurd (Option.some.inj h5).symm hneP
          · rw [heq]
        · intro i hcb
          have hib : c.blocks.length = i := Option.some.inj hcb
          subst hib
          refine ⟨hlen, ?_⟩
          simp [Compilation.terminate, modifyAt_length, List.length_append]
      · refine ⟨?_, ?_, ?_⟩
        · simp only [Compilation.terminate, modifyAt_length, List.length_append]
          omega
        · intro i hi hop
          simp only [Compilation.terminate] at hop
          rcases (openL_modify_some _ _ _ _).mp hop with ⟨hneU, hop2⟩
          rcases (openL_modify_some _ _ _ _).mp hop2 with ⟨hneP, hop3⟩
          rcases (openL_append _ _ _).mp hop3 with hop4 | ⟨heq, _⟩
          · have h5 := hopen i hi hop4
            rw [hc] at h5
            exact absurd (Option.some.inj h5).symm hneP
          · exact absurd heq hneU
        · intro i hcb
          cases hcb
      · refine ⟨?_, ?_, ?_⟩
        · simp only [Compilation.terminate, modifyAt_length, List.length_append]
          omega
        · intro i hi hop
          simp only [Compilation.terminate] at hop
          rcases (openL_modify_some _ _ _ _).mp hop with ⟨hneP, hop2⟩
          rcases (openL_append _ _ _).mp hop2 with hop3 | ⟨heq, _⟩
          · have h5 := hopen i hi hop3
            rw [hc] at h5
            exact absurd (Option.some.inj h5).symm hneP
          · rw [heq]
        · intro i hcb
          have hib : c.blocks.length = i := Option.some.inj hcb
          subst hib
          refine ⟨hlen, ?_⟩
          simp [Compilation.terminate, modifyAt_length, List.length_append]

theorem visitForCompile_inv (c : Compilation) (n : Node) (h : pass2Inv c) :
    pass2Inv (c.visitForCompile n) := by
  cases n with
  | labeled nm => exact labeledCompile_inv c nm h
  | instr s => cases s <;> exact h
  | assign nm v => exact h
  | dataStmt o l => exact h
  | dataWordStmt o l => exact h
  | other => exact h

theorem pass2States_inv (nodes : List Node) (c : Compilation) (h : pass2Inv c) :
    ∀ st ∈ pass2States c nodes, pass2Inv st := by
  induction nodes generalizing c with
  | nil =>
    intro st hst
    simp only [pass2States, List.mem_singleton] at hst
    exact hst ▸ h
  | cons n ns ih =>
    intro st hst
    simp only [pass2States] at hst
    rcases List.mem_cons.mp hst with heq | hmem
    · exact heq ▸ h
    · exact ih (c.visitForCompile n) (visitForCompile_inv c n h) st hmem

theorem pass2_mem_states (nodes : List Node) (c : Compilation) :
    pass2 c nodes ∈ pass2States c nodes := by
  induction nodes generalizing c with
  | nil => simp [pass2, pass2States]
  | cons n ns ih =>
    have hstep : pass2 c (n :: ns) = pass2 (c.visitForCompile n) ns := rfl
    rw [hstep]
    simp only [pass2States]
    exact List.mem_cons_of_mem _ (ih (c.visitForCompile n))

theorem closeFinal_all_closed (c : Compilation) (h : pass2Inv c) :
    ∀ i, 1 ≤ i → ¬ openL (closeFinalBlock c).blocks i := by
  obtain ⟨hlen, hopen, hcur⟩ := h
  intro i hi hop
  cases hc : c.currentBlock with
  | none =>
    simp only [closeFinalBlock, hc] at hop
    have h5 := hopen i hi hop
    rw [hc] at h5
    cases h5
  | some p =>
    simp only [closeFinalBlock, hc, Compilation.terminate] at hop
    rcases (openL_modify_some _ _ _ _).mp hop with ⟨hne, hop2⟩
    have h5 := hopen i hi hop2
    rw [hc] at h5
    exact hne (Option.some.inj h5).symm

/-! ### Claim theorem: C8 -/

/-- C8: at every point during the control-flow lowering pass (the states
of pass2States), at most one pass-2-created block is unterminated — any
two unterminated blocks other than the pre-existing entry block (index 0,
terminated by the entry-point hookup after the pass) coincide — and after
the pass and its close-off step every pass-2-created block, in particular
the last block in source order, is terminated; a terminator is by
construction either a branch or unreachable. -/
theorem C8_single_open_block (offsets : List (Int × Node)) (nodes : List Node) :
    (∀ st ∈ pass2States (prePass2 offsets nodes) nodes,
      ∀ i j, 1 ≤ i → 1 ≤ j → openL st.blocks i → openL st.blocks j → i = j)
    ∧ (∀ i, 1 ≤ i →
      ¬ openL (closeFinalBlock (pass2 (prePass2 offsets nodes) nodes)).blocks i) := by
  have hinv0 : pass2Inv (prePass2 offsets nodes) := by
    have hblocks : (prePass2 offsets nodes).blocks
        = [({ name := "Entry", term := none } : BBlock)] := rfl
    have hcb : (prePass2 offsets nodes).currentBlock = none := by
      simp only [prePass2]
      exact (dataPass_pres nodes initialCompilation).2.2.2.2.2.2
    refine ⟨?_, ?_, ?_⟩
    · rw [hblocks]; simp
    · intro i hi hop
      rw [hblocks] at hop
      cases i with
      | zero => omega
      | succ k => simp [openL, nthBlock] at hop
    · intro i hcb2
      rw [hcb] at hcb2
      cases hcb2
  constructor
  · intro st hst i j hi hj hoi hoj
    have hinv := pass2States_inv nodes (prePass2 offsets nodes) hinv0 st hst
    have h1 := hinv.2.1 i hi hoi
    have h2 := hinv.2.1 j hj hoj
    rw [h1] at h2
    exact Option.some.inj h2
  · have hinvf : pass2Inv (pass2 (prePass2 offsets nodes) nodes) :=
      pass2States_inv nodes (prePass2 offsets nodes) hinv0 _
        (pass2_mem_states nodes (prePass2 offsets nodes))
    exact closeFinal_all_closed _ hinvf

/-- C8 witness: a two-label program; at the final pass-2 state the two
open-block indices must coincide, and after the close-off block 1 is
terminated. -/
theorem C8_witness :
    (2 : Nat) = 2
    ∧ ¬ openL (closeFinalBlock (pass2 (prePass2 ([] : List (Int × Node))
        [Node.labeled ("a"), Node.labeled ("b")])
        [Node.labeled ("a"), Node.labeled ("b")])).blocks 1 :=
  ⟨(C8_single_open_block [] [Node.labeled ("a"), Node.labeled ("b")]).1
      (pass2 (prePass2 [] [Node.labeled ("a"), Node.labeled ("b")])
        [Node.labeled ("a"), Node.labeled ("b")])
      (by decide) 2 2 (by decide) (by decide) (by decide) (by decide),
   (C8_single_open_block [] [Node.labeled ("a"), Node.labeled ("b")]).2 1 (by decide)⟩

end Asm6502
